import Mathlib

/-!
Shallow embedding of the table-extraction engine of the repository
`rgeorgiev583/ocr-extract-table`.  The repository holds two near-identical
source files, `src/ctocr.py` and `src/extract-table.py`; every definition
below embeds the corresponding function of both files (the doc comment
names the `ctocr.py` symbol first and the `extract-table.py` symbol
second).  Pixel grids are modelled as total functions from coordinates to
pixel values, Python `None` as `Option.none`, and the unchecked
out-of-range pixel accesses of the border-trimming loops as the `none`
result of a bounded search.
-/

namespace OcrTable

/-- Python truthiness of the scan variables `x1` / `y1`, which hold either
`None` (modelled as `none`) or a pixel index: both `None` and `0` are falsy,
which is what the test `if not x1:` in the line scanners checks. -/
def truthy : Option Nat → Bool
  | none => false
  | some n => n != 0

/-- State of the inner per-scanline loop of `get_hlines` / `get_vlines`
(`get_horiz_line_coords` / `get_vert_line_coords`): `s1` and `s2` are the
Python variables `x1` and `x2` (resp. `y1` and `y2`), `black` is `black`
(`border_color_pixel_count`) and `run` is `run`
(`max_border_color_pixel_count`). -/
structure ScanState where
  s1 : Option Nat
  s2 : Option Nat
  black : Nat
  run : Nat
deriving DecidableEq

/-- Initial loop state: `x1, x2 = (None, None)`, `black = 0`, `run = 0`. -/
def initScan : ScanState := ⟨none, none, 0, 0⟩

/-- One iteration of the scan-loop body (ctocr.py lines 27-35): on a pixel
equal to the border color, increment `black`, assign `s1` when it is falsy
and always assign `s2`; on any other pixel fold the just-ended run into
`run` when it is strictly larger and reset `black`. -/
def scanStep {α : Type} [DecidableEq α] (border : α) (getpx : Nat → α)
    (s : ScanState) (i : Nat) : ScanState :=
  if getpx i = border then
    { s with black := s.black + 1,
             s1 := if truthy s.s1 then s.s1 else some i,
             s2 := some i }
  else
    { s with run := if s.black > s.run then s.black else s.run,
             black := 0 }

/-- Full scan of one scanline of length `n` (the inner `for` loop of the
line scanners), as a left fold of `scanStep` over the pixel indices. -/
def scanline {α : Type} [DecidableEq α] (border : α) (getpx : Nat → α)
    (n : Nat) : ScanState :=
  (List.range n).foldl (scanStep border getpx) initScan

/-- `get_hlines` (ctocr.py) / `get_horiz_line_coords` (extract-table.py):
one tuple `(x1, y, x2, y)` per row whose best completed run strictly
exceeds the threshold (`H_THRESH` / `HORIZ_PIXEL_COUNT_THRESHOLD`,
default 300).  `x1` and `x2` keep their Python `Option` type. -/
def get_hlines {α : Type} [DecidableEq α] (pix : Nat → Nat → α)
    (w h thresh : Nat) (border : α) :
    List (Option Nat × Nat × Option Nat × Nat) :=
  (List.range h).filterMap (fun y =>
    let s := scanline border (fun x => pix x y) w
    if s.run > thresh then some (s.s1, y, s.s2, y) else none)

/-- `get_vlines` (ctocr.py) / `get_vert_line_coords` (extract-table.py):
one tuple `(x, y1, x, y2)` per column whose best completed run strictly
exceeds the threshold. -/
def get_vlines {α : Type} [DecidableEq α] (pix : Nat → Nat → α)
    (w h thresh : Nat) (border : α) :
    List (Nat × Option Nat × Nat × Option Nat) :=
  (List.range w).filterMap (fun x =>
    let s := scanline border (fun y => pix x y) h
    if s.run > thresh then some (x, s.s1, x, s.s2) else none)

/-- `get_cols` (ctocr.py) / `get_col_coords` (extract-table.py): for every
consecutive pair of vertical lines whose element-0 coordinates differ by
more than 1 (Python integer subtraction, hence the `Int` cast), emit
`(prev[0], prev[1], curr[2], curr[3])`.  The function is polymorphic in
the payload positions exactly as the Python code is duck-typed: only
position 0 is read arithmetically. -/
def get_cols {α β : Type} (vlines : List (Nat × α × Nat × β)) :
    List (Nat × α × Nat × β) :=
  (vlines.zip vlines.tail).filterMap (fun pc =>
    if ((pc.2.1 : Int)) - ((pc.1.1 : Int)) > 1 then
      some (pc.1.1, pc.1.2.1, pc.2.2.2.1, pc.2.2.2.2)
    else none)

/-- `get_rows` (ctocr.py) / `get_row_coords` (extract-table.py): for every
consecutive pair of horizontal lines with `curr[1] - prev[3] > 1`, emit
`(prev[0], prev[1], curr[2], curr[3])`. -/
def get_rows {α β : Type} (hlines : List (α × Nat × β × Nat)) :
    List (α × Nat × β × Nat) :=
  (hlines.zip hlines.tail).filterMap (fun pc =>
    if ((pc.2.2.1 : Int)) - ((pc.1.2.2.2 : Int)) > 1 then
      some (pc.1.1, pc.1.2.1, pc.2.2.2.1, pc.2.2.2.2)
    else none)

/-- `get_cells` (ctocr.py) / `get_cell_coords` (extract-table.py): the
dense row-major matrix with entry `(i, j)` equal to
`(col[j][0], row[i][1], col[j][2], row[i][3])`. -/
def get_cells {α β γ δ : Type} (rows : List (α × Nat × β × Nat))
    (cols : List (Nat × γ × Nat × δ)) : List (List (Nat × Nat × Nat × Nat)) :=
  rows.map (fun row => cols.map (fun col =>
    (col.1, row.2.1, col.2.2.1, row.2.2.2)))

/-- The cell-matrix construction of `get_image_data` (ctocr.py lines
137-151) / `get_image_table_data` (extract-table.py lines 136-152): run
both line scanners, assemble rows and columns, build the cell matrix and
apply the per-cell processing (`ocr_cell` / `ocr_table_cell`, abstracted
as `process` since it shells out to Tesseract) to `cells[row][col]` for
every `row < len(rows)` and `col < len(cols)`. -/
def get_image_data_core {α β : Type} [DecidableEq α]
    (process : Nat × Nat × Nat × Nat → β) (pix : Nat → Nat → α)
    (w h hthresh vthresh : Nat) (border : α) : List (List β) :=
  let hlines := get_hlines pix w h hthresh border
  let vlines := get_vlines pix w h vthresh border
  let rows := get_rows hlines
  let cols := get_cols vlines
  let cells := get_cells rows cols
  (List.range rows.length).map (fun i =>
    (List.range cols.length).map (fun j =>
      process ((cells.getD i []).getD j (0, 0, 0, 0))))

/-- A single-channel image: the grayscale cell region inside
`ocr_cell` / `ocr_table_cell` after `ImageOps.grayscale`, with pixel
intensities in `[0, 255]`. -/
structure GrayImage where
  width : Nat
  height : Nat
  pix : Nat → Nat → Nat

/-- `region.point(lambda p: p > 200 and 255)`: intensities above 200
become 255, everything else becomes 0 (Python `False` is pixel value 0). -/
def binarize (im : GrayImage) : GrayImage :=
  { im with pix := fun x y => if im.pix x y > 200 then 255 else 0 }

/-- One bin of `region.histogram()`: the number of pixels with value `v`. -/
def histo (im : GrayImage) (v : Nat) : Nat :=
  ((List.range im.width).map (fun x =>
    ((List.range im.height).filter (fun y => im.pix x y == v)).length)).sum

/-- Background-shade selection (ctocr.py lines 108-112 /
extract-table.py lines 107-111): black (0) exactly when
`histo[0] > histo[255]`, white (255) otherwise. -/
def bgShade (im : GrayImage) : Nat :=
  if histo im 0 > histo im 255 then 0 else 255

/-- The top-left diagonal trim loop
`while pix[x1, y1] != bgcolor: x1 += 1; y1 += 1`: the first diagonal
index whose pixel equals the background shade.  The loop has no bounds
check; `none` models the access at index `min width height`, which is
outside the image and raises PIL's unchecked `IndexError`. -/
def scanTL (im : GrayImage) (bg : Nat) : Option Nat :=
  (List.range (min im.width im.height)).find? (fun k => im.pix k k == bg)

/-- The bottom-right diagonal trim loop
`while pix[x2, y2] != bgcolor: x2 -= 1; y2 -= 1`, started at
`(width - 1, height - 1)`: the first offset whose pixel equals the
background shade; `none` models the cursor leaving the image. -/
def scanBR (im : GrayImage) (bg : Nat) : Option Nat :=
  (List.range (min im.width im.height)).find? (fun k =>
    im.pix (im.width - 1 - k) (im.height - 1 - k) == bg)

/-- The crop box computed by the border-trimming part of `ocr_cell`
(ctocr.py lines 106-125) / `ocr_table_cell` (extract-table.py lines
105-124): binarize, pick the background shade, run both diagonal scans
and return `(x1, y1, x2, y2)`; `none` models the unchecked out-of-range
fault of the source loops. -/
def trimBox (im : GrayImage) : Option (Nat × Nat × Nat × Nat) :=
  let region := binarize im
  let bg := bgShade region
  match scanTL region bg, scanBR region bg with
  | some k1, some k2 =>
      some (k1, k1, im.width - 1 - k2, im.height - 1 - k2)
  | _, _ => none

/-- `region.crop((x1, y1, x2, y2))` with a PIL box (right and bottom
exclusive): the new image has size `(x2 - x1) × (y2 - y1)` and reads the
source at the translated coordinates (out-of-source reads are 0, as PIL
pads). -/
def crop (im : GrayImage) (box : Nat × Nat × Nat × Nat) : GrayImage :=
  { width := box.2.2.1 - box.1,
    height := box.2.2.2 - box.2.1,
    pix := fun x y =>
      if box.1 + x < im.width ∧ box.2.1 + y < im.height then
        im.pix (box.1 + x) (box.2.1 + y)
      else 0 }

/-- Python whitespace class `\s` restricted to ASCII, as matched by the
`re.fullmatch` patterns of `color`. -/
def isPySpace (c : Char) : Bool :=
  c == ' ' || c == '\t' || c == '\n' || c == '\r' || c == '\x0b' || c == '\x0c'

/-- The character class `[0-9A-Fa-f]` of the hex color pattern. -/
def isHexDigitChar (c : Char) : Bool :=
  (48 ≤ c.toNat && c.toNat ≤ 57) || (97 ≤ c.toNat && c.toNat ≤ 102) ||
    (65 ≤ c.toNat && c.toNat ≤ 70)

/-- The character class `\d` (ASCII digits) of the decimal color pattern. -/
def isDigitChar (c : Char) : Bool :=
  48 ≤ c.toNat && c.toNat ≤ 57

/-- `re.fullmatch(r"\s*#([0-9A-Fa-f]{2})([0-9A-Fa-f]{2})([0-9A-Fa-f]{2})\s*", s)`:
optional whitespace, `#`, six hex digits split into three two-character
groups, optional trailing whitespace. -/
def matchHexColor (cs : List Char) : Option (List Char × List Char × List Char) :=
  match cs.dropWhile isPySpace with
  | '#' :: c1 :: c2 :: c3 :: c4 :: c5 :: c6 :: rest =>
      if ([c1, c2, c3, c4, c5, c6].all isHexDigitChar) && rest.all isPySpace then
        some ([c1, c2], [c3, c4], [c5, c6])
      else none
  | _ => none

/-- `re.fullmatch(r"\s*\(\s*(\d+)\s*,\s*(\d+)\s*,\s*(\d+)\s*\)\s*", s)`:
a parenthesised, comma-separated triple of decimal digit groups with
optional whitespace everywhere.  The pattern is deterministic, so direct
longest-take parsing is exact. -/
def matchDecColor (cs : List Char) : Option (List Char × List Char × List Char) :=
  match cs.dropWhile isPySpace with
  | '(' :: r1 =>
    let r1s := r1.dropWhile isPySpace
    let g1 := r1s.takeWhile isDigitChar
    let r2 := (r1s.dropWhile isDigitChar).dropWhile isPySpace
    match g1, r2 with
    | [], _ => none
    | _ :: _, ',' :: r3 =>
      let r3s := r3.dropWhile isPySpace
      let g2 := r3s.takeWhile isDigitChar
      let r4 := (r3s.dropWhile isDigitChar).dropWhile isPySpace
      match g2, r4 with
      | [], _ => none
      | _ :: _, ',' :: r5 =>
        let r5s := r5.dropWhile isPySpace
        let g3 := r5s.takeWhile isDigitChar
        let r6 := (r5s.dropWhile isDigitChar).dropWhile isPySpace
        match g3, r6 with
        | [], _ => none
        | _ :: _, ')' :: r7 =>
            if r7.all isPySpace then some (g1, g2, g3) else none
        | _, _ => none
      | _, _ => none
    | _, _ => none
  | _ => none

/-- Python `int(s)` with its default base 10, as applied to each captured
group: succeeds exactly on non-empty all-decimal-digit strings (the groups
never carry signs or spaces), and a hex letter makes it raise
`ValueError`, modelled as `none`. -/
def pyIntDec (cs : List Char) : Option Nat :=
  if !cs.isEmpty && cs.all isDigitChar then
    some (cs.foldl (fun n c => n * 10 + (c.toNat - 48)) 0)
  else none

/-- Outcomes of the `color` argument parser that are not a color value:
`invalidColor` is the explicitly raised input-validation error
(`TypeError` in ctocr.py, `argparse.ArgumentTypeError` in
extract-table.py); `valueError` is the uncaught `ValueError` escaping
from `int()` on a non-decimal captured group. -/
inductive ColorError where
  | invalidColor
  | valueError
deriving DecidableEq

/-- `color` (ctocr.py lines 175-186 / extract-table.py lines 183-194):
try the hex pattern, then the decimal pattern; on a match convert each
captured group with `int(...)` (base 10!); with no match raise the
input-validation error. -/
def color (s : String) : Except ColorError (Nat × Nat × Nat) :=
  match matchHexColor s.data with
  | some (g1, g2, g3) =>
    match pyIntDec g1, pyIntDec g2, pyIntDec g3 with
    | some r, some g, some b => Except.ok (r, g, b)
    | _, _, _ => Except.error ColorError.valueError
  | none =>
    match matchDecColor s.data with
    | some (g1, g2, g3) =>
      match pyIntDec g1, pyIntDec g2, pyIntDec g3 with
      | some r, some g, some b => Except.ok (r, g, b)
      | _, _, _ => Except.error ColorError.valueError
    | none => Except.error ColorError.invalidColor

/-- Indices of the border-colored pixels of one scanline, in scan order. -/
def matchList {α : Type} [DecidableEq α] (border : α) (getpx : Nat → α)
    (n : Nat) : List Nat :=
  (List.range n).filter (fun i => decide (getpx i = border))

/-- Closed form of the start coordinate the scanner records, following the
amended reading of the spec: the first matching pixel of the scanline,
except that a first match at index 0 is overwritten by the second match
when one exists (the Python code tests truthiness, not absence). -/
def emittedStart : List Nat → Option Nat
  | [] => none
  | [m] => some m
  | m0 :: m1 :: _ => if m0 = 0 then some m1 else some m0

/-- 1000-wide strip whose row 0 has border-colored runs at columns 2-3,
6-10 and 12 (nothing else): three runs, only the middle one longer than
threshold 3. -/
def pix14 : Nat → Nat → Nat := fun x _ =>
  if x = 2 ∨ x = 3 ∨ (6 ≤ x ∧ x ≤ 10) ∨ x = 12 then 1 else 0

/-- Strip whose single run occupies columns 1-4 of row 0 and touches the
right edge of a width-5 grid. -/
def pixC4 : Nat → Nat → Nat := fun x _ => if 1 ≤ x then 1 else 0

/-- 6×2 grid whose single run occupies columns 1-2 of row 0. -/
def pixW4 : Nat → Nat → Nat := fun x y =>
  if y = 0 ∧ 1 ≤ x ∧ x ≤ 2 then 1 else 0

/-- Scanline matching at columns 0-5 of row 0 in a width-8 grid: the first
matching pixel sits at index 0. -/
def pixC9 : Nat → Nat → Nat := fun x _ => if x ≤ 5 then 1 else 0

/-- A grid with no pixel equal to border color 0 at all. -/
def pixOne : Nat → Nat → Nat := fun _ _ => 1

/-- 5×5 light cell with a single dark content pixel at (2, 2), strictly
inside; after binarization the surrounding shade (255) is the majority
background. -/
def im5 : GrayImage :=
  ⟨5, 5, fun x y => if x = 2 ∧ y = 2 then 0 else 255⟩

/-- 3×3 image whose main diagonal is dark and whose remaining pixels are
light: the majority (background) shade is 255, yet no diagonal pixel is
background, so the top-left trim loop never finds one. -/
def im3diag : GrayImage :=
  ⟨3, 3, fun x y => if x = y then 0 else 255⟩

/-- 2×1 image with one black and one white pixel: the binarized histogram
bins for 0 and 255 tie. -/
def im2tie : GrayImage :=
  ⟨2, 1, fun x _ => if x = 0 then 0 else 255⟩

/-! ### Helper lemmas about the scanline fold -/

theorem scanline_succ {α : Type} [DecidableEq α] (border : α) (g : Nat → α) (n : Nat) :
    scanline border g (n + 1) = scanStep border g (scanline border g n) n := by
  simp [scanline, List.range_succ]

theorem matchList_succ {α : Type} [DecidableEq α] (border : α) (g : Nat → α) (n : Nat) :
    matchList border g (n + 1) =
      matchList border g n ++ if g n = border then [n] else [] := by
  by_cases h : g n = border <;>
    simp [matchList, List.range_succ, List.filter_append, h]

theorem pairwise_matchList {α : Type} [DecidableEq α] (border : α) (g : Nat → α) (n : Nat) :
    (matchList border g n).Pairwise (· < ·) :=
  (List.pairwise_lt_range n).filter _

theorem mem_matchList {α : Type} [DecidableEq α] (border : α) (g : Nat → α) (n i : Nat) :
    i ∈ matchList border g n ↔ i < n ∧ g i = border := by
  simp [matchList, List.mem_filter]

theorem emittedStart_concat (ms : List Nat) (n : Nat) (hms : ms.Pairwise (· < ·)) :
    emittedStart (ms ++ [n]) =
      if truthy (emittedStart ms) then emittedStart ms else some n := by
  match ms with
  | [] => simp [emittedStart, truthy]
  | [m] =>
    by_cases hm : m = 0 <;> simp [emittedStart, truthy, hm]
  | m0 :: m1 :: rest =>
    have h01 : m0 < m1 := (List.pairwise_cons.mp hms).1 m1 (by simp)
    by_cases hm0 : m0 = 0
    · have hm1 : m1 ≠ 0 := by omega
      simp [emittedStart, truthy, hm0, hm1]
    · simp [emittedStart, truthy, hm0]

theorem scanline_s1 {α : Type} [DecidableEq α] (border : α) (g : Nat → α) (n : Nat) :
    (scanline border g n).s1 = emittedStart (matchList border g n) := by
  induction n with
  | zero => rfl
  | succ n ih =>
    rw [scanline_succ, matchList_succ]
    by_cases h : g n = border
    · rw [if_pos h, emittedStart_concat _ _ (pairwise_matchList border g n)]
      simp [scanStep, h, ih]
    · rw [if_neg h, List.append_nil]
      simp [scanStep, h, ih]

theorem scanline_s2 {α : Type} [DecidableEq α] (border : α) (g : Nat → α) (n : Nat) :
    (scanline border g n).s2 = (matchList border g n).getLast? := by
  induction n with
  | zero => rfl
  | succ n ih =>
    rw [scanline_succ, matchList_succ]
    by_cases h : g n = border
    · rw [if_pos h, List.getLast?_concat]
      simp [scanStep, h]
    · rw [if_neg h, List.append_nil]
      simp [scanStep, h, ih]

theorem scanline_le {α : Type} [DecidableEq α] (border : α) (g : Nat → α) (n : Nat) :
    (scanline border g n).black ≤ (matchList border g n).length ∧
    (scanline border g n).run ≤ (matchList border g n).length := by
  induction n with
  | zero => exact ⟨Nat.le_refl 0, Nat.le_refl 0⟩
  | succ n ih =>
    rw [scanline_succ, matchList_succ]
    obtain ⟨ih1, ih2⟩ := ih
    by_cases h : g n = border
    · rw [if_pos h]
      simp only [scanStep, if_pos h, List.length_append, List.length_singleton]
      exact ⟨by omega, by omega⟩
    · rw [if_neg h, List.append_nil]
      simp only [scanStep, if_neg h]
      refine ⟨by omega, ?_⟩
      split <;> omega

theorem scanline_no_match {α : Type} [DecidableEq α] (border : α) (g : Nat → α) (n : Nat)
    (h : ∀ i, i < n → g i ≠ border) : scanline border g n = initScan := by
  induction n with
  | zero => rfl
  | succ n ih =>
    rw [scanline_succ, ih (fun i hi => h i (by omega))]
    simp [scanStep, h n (by omega), initScan]

theorem scanline_single_run {α : Type} [DecidableEq α] (border : α) (g : Nat → α)
    (a b : Nat) (ha : 1 ≤ a) (hab : a ≤ b) (m : Nat)
    (hiff : ∀ i, i < m → (g i = border ↔ a ≤ i ∧ i ≤ b)) :
    scanline border g m =
      if m ≤ a then initScan
      else if m ≤ b + 1 then ⟨some a, some (m - 1), m - a, 0⟩
      else ⟨some a, some b, 0, b - a + 1⟩ := by
  induction m with
  | zero => rw [if_pos (Nat.zero_le a)]; rfl
  | succ m ih =>
    have hprev := ih (fun i hi => hiff i (by omega))
    have hm := hiff m (by omega)
    rw [scanline_succ, hprev]
    rcases Nat.lt_or_ge m a with h1 | h1
    · have hgm : ¬ g m = border := by rw [hm]; omega
      rw [if_pos (by omega : m ≤ a), if_pos (by omega : m + 1 ≤ a)]
      simp [scanStep, hgm, initScan]
    · rcases Nat.lt_or_ge m (b + 1) with h2 | h2
      · have hgm : g m = border := hm.mpr ⟨h1, by omega⟩
        rw [if_neg (by omega : ¬ m + 1 ≤ a), if_pos (by omega : m + 1 ≤ b + 1)]
        rcases Nat.eq_or_lt_of_le h1 with h3 | h3
        · rw [if_pos (by omega : m ≤ a)]
          simp only [scanStep, if_pos hgm, initScan, truthy]
          simp [ScanState.mk.injEq]
          omega
        · rw [if_neg (by omega : ¬ m ≤ a), if_pos (by omega : m ≤ b + 1)]
          have ht : truthy (some a) = true := by simp [truthy]; omega
          simp only [scanStep, if_pos hgm, ht, if_pos]
          simp [ScanState.mk.injEq]
          omega
      · have hgm : ¬ g m = border := by rw [hm]; omega
        rcases Nat.eq_or_lt_of_le h2 with h3 | h3
        · rw [if_neg (by omega : ¬ m ≤ a), if_pos (by omega : m ≤ b + 1)]
          rw [if_neg (by omega : ¬ m + 1 ≤ a), if_neg (by omega : ¬ m + 1 ≤ b + 1)]
          have hbz : m - a > 0 := by omega
          simp only [scanStep, if_neg hgm]
          simp [ScanState.mk.injEq, hbz]
          omega
        · rw [if_neg (by omega : ¬ m ≤ a), if_neg (by omega : ¬ m ≤ b + 1)]
          rw [if_neg (by omega : ¬ m + 1 ≤ a), if_neg (by omega : ¬ m + 1 ≤ b + 1)]
          simp [scanStep, hgm]

theorem matchList_interval {α : Type} [DecidableEq α] (border : α) (g : Nat → α)
    (a b : Nat) (n : Nat)
    (hiff : ∀ i, i < n → (g i = border ↔ a ≤ i ∧ i ≤ b)) :
    matchList border g n = List.range' a (min n (b + 1) - a) := by
  induction n with
  | zero =>
    have h0 : min 0 (b + 1) - a = 0 := by omega
    rw [h0]
    rfl
  | succ n ih =>
    have hprev := ih (fun i hi => hiff i (by omega))
    have hn := hiff n (by omega)
    rw [matchList_succ, hprev]
    rcases Nat.lt_or_ge n a with h1 | h1
    · have hgn : ¬ g n = border := by rw [hn]; omega
      rw [if_neg hgn, List.append_nil]
      have he : min (n + 1) (b + 1) - a = min n (b + 1) - a := by omega
      rw [he]
    · rcases Nat.lt_or_ge n (b + 1) with h2 | h2
      · have hgn : g n = border := hn.mpr ⟨h1, by omega⟩
        rw [if_pos hgn]
        have e1 : min n (b + 1) - a = n - a := by omega
        have e2 : min (n + 1) (b + 1) - a = (n - a) + 1 := by omega
        rw [e1, e2, List.range'_concat]
        have e3 : a + 1 * (n - a) = n := by omega
        rw [e3]
      · have hgn : ¬ g n = border := by rw [hn]; omega
        rw [if_neg hgn, List.append_nil]
        have he : min (n + 1) (b + 1) - a = min n (b + 1) - a := by omega
        rw [he]

theorem filterMap_range_nil {β : Type} (f : Nat → Option β) (h : Nat)
    (hf : ∀ y, y < h → f y = none) : (List.range h).filterMap f = [] :=
  List.filterMap_eq_nil_iff.mpr (fun y hy => hf y (List.mem_range.mp hy))

theorem filterMap_range_single {β : Type} (f : Nat → Option β) (y0 : Nat) (v : β)
    (hv : f y0 = some v) :
    ∀ h, y0 < h → (∀ y, y < h → y ≠ y0 → f y = none) →
      (List.range h).filterMap f = [v] := by
  intro h
  induction h with
  | zero => intro hy _; omega
  | succ n ih =>
    intro hy hnone
    rw [List.range_succ, List.filterMap_append]
    rcases Nat.lt_or_ge y0 n with h1 | h1
    · rw [ih h1 (fun y hy1 hne => hnone y (by omega) hne)]
      simp [hnone n (by omega) (by omega)]
    · have hyn : y0 = n := by omega
      rw [filterMap_range_nil f n (fun y hy1 => hnone y (by omega) (by omega))]
      subst hyn
      simp [hv]

theorem filterMap_if_all {γ δ : Type} (l : List γ) (p : γ → Prop) [DecidablePred p]
    (f : γ → δ) (hl : ∀ x ∈ l, p x) :
    (l.filterMap (fun x => if p x then some (f x) else none)) = l.map f := by
  induction l with
  | nil => rfl
  | cons a t ih =>
    simp only [List.filterMap_cons, List.map_cons, if_pos (hl a (by simp))]
    rw [ih (fun x hx => hl x (by simp [hx]))]

theorem chain'_zip_tail {γ : Type} (R : γ → γ → Prop) (l : List γ)
    (h : List.Chain' R l) : ∀ pc ∈ l.zip l.tail, R pc.1 pc.2 := by
  intro pc hpc
  obtain ⟨i, hget⟩ := List.mem_iff_get.mp hpc
  have hi : (i : Nat) < (l.zip l.tail).length := i.isLt
  have hil : (i : Nat) + 1 < l.length := by
    simp [List.length_zip, List.length_tail] at hi
    omega
  have hz : (l.zip l.tail).get i =
      (l.get ⟨i, by omega⟩, l.get ⟨(i : Nat) + 1, hil⟩) := by
    simp [List.get_eq_getElem, List.getElem_zip, List.getElem_tail]
  rw [← hget, hz]
  exact List.chain'_iff_get.mp h i (by omega)

/-! ### Claim theorems -/

/-- Claim C1 (evaluation at the failing input): on the 3×3 cell image
whose binarized diagonal holds no background-shade pixel, the top-left
trim loop of `ocr_cell` / `ocr_table_cell` exhausts every in-bounds
diagonal index without finding a background pixel — the next access,
`pix[3, 3]`, is outside the image, so the loop ends in PIL's unchecked
`IndexError` (modelled as `none`), not in any explicit empty-cell
error: no `EmptyCellContent` signal exists anywhere in the code. -/
theorem c1_trim_out_of_range_eval :
    scanTL (binarize im3diag) (bgShade (binarize im3diag)) = none ∧
    trimBox im3diag = none :=
  ⟨by decide, by decide⟩

/-- Claim C3 (evaluation at the failing inputs): `color` converts the
captured two-hex-digit groups with Python `int()` in base 10, so the
well-formed hex string `"#102030"` parses to `(10, 20, 30)` instead of
the hexadecimal value `(16, 32, 48)`, and `"#ff0000"` raises an
uncaught `ValueError` instead of either a color value or the
input-validation error; the decimal notation and the rejection of
non-matching strings behave as claimed. -/
theorem c3_color_base10_eval :
    color ("#102030") = Except.ok (10, 20, 30) ∧
    ((10, 20, 30) : Nat × Nat × Nat) ≠ (16, 32, 48) ∧
    color ("#ff0000") = Except.error ColorError.valueError ∧
    color ("(1, 2, 3)") = Except.ok (1, 2, 3) ∧
    color ("junk") = Except.error ColorError.invalidColor :=
  ⟨rfl, by decide, rfl, rfl, rfl⟩

/-- Claim C8 (counterexample): for the 5×5 all-background cell `im5`
with a single foreground pixel at (2, 2) strictly inside, the trim of
`ocr_cell` / `ocr_table_cell` returns the box `(0, 0, 4, 4)` — the
diagonal scans stop at the very first background pixel, the corners —
which is not the content block's bounding rectangle under either the
exclusive convention `(2, 2, 3, 3)` or the inclusive one `(2, 2, 2, 2)`;
and trimming the already-trimmed image again yields the strictly
smaller box `(0, 0, 3, 3)`, so trim is not idempotent either. -/
theorem c8_counterexample :
    trimBox im5 = some (0, 0, 4, 4) ∧
    ((0, 0, 4, 4) : Nat × Nat × Nat × Nat) ≠ (2, 2, 3, 3) ∧
    ((0, 0, 4, 4) : Nat × Nat × Nat × Nat) ≠ (2, 2, 2, 2) ∧
    trimBox (crop (binarize im5) (0, 0, 4, 4)) = some (0, 0, 3, 3) :=
  ⟨by decide, by decide, by decide, by decide⟩

/-- Claim C8 (amended): whenever the binarized cell's top-left and
bottom-right corner pixels equal the detected background shade — as in
any cell that is background at its border, in particular an
all-background cell with a content block strictly inside — the trim of
`ocr_cell` / `ocr_table_cell` returns the box
`(0, 0, width - 1, height - 1)`: the diagonal scans stop at the first
background pixel on each diagonal, which is the corner itself, so the
crop removes exactly the last pixel column and row rather than
tightening to the content bounding box. -/
theorem c8_trim_corners (im : GrayImage) (hw : 0 < im.width) (hh : 0 < im.height)
    (h1 : (binarize im).pix 0 0 = bgShade (binarize im))
    (h2 : (binarize im).pix (im.width - 1) (im.height - 1) = bgShade (binarize im)) :
    trimBox im = some (0, 0, im.width - 1, im.height - 1) := by
  obtain ⟨k, hk⟩ : ∃ k, min im.width im.height = k + 1 :=
    ⟨min im.width im.height - 1, by omega⟩
  have hbw : (binarize im).width = im.width := rfl
  have hbh : (binarize im).height = im.height := rfl
  have hTL : scanTL (binarize im) (bgShade (binarize im)) = some 0 := by
    unfold scanTL
    rw [hbw, hbh, hk, List.range_succ_eq_map]
    apply List.find?_cons_of_pos
    simp [h1]
  have hBR : scanBR (binarize im) (bgShade (binarize im)) = some 0 := by
    unfold scanBR
    rw [hbw, hbh, hk, List.range_succ_eq_map]
    apply List.find?_cons_of_pos
    simp [hbw, hbh, h2]
  simp only [trimBox]
  rw [hTL, hBR]
  simp

/-- Claim C8 (witness): the amended theorem applied to the concrete cell
`im5`, whose binarized corners are background, yields the crop box
`(0, 0, 4, 4)`. -/
theorem c8_trim_corners_witness :
    (0 < im5.width ∧ 0 < im5.height ∧
      (binarize im5).pix 0 0 = bgShade (binarize im5) ∧
      (binarize im5).pix (im5.width - 1) (im5.height - 1) = bgShade (binarize im5)) ∧
    trimBox im5 = some (0, 0, im5.width - 1, im5.height - 1) :=
  ⟨⟨by decide, by decide, by decide, by decide⟩,
   c8_trim_corners im5 (by decide) (by decide) (by decide) (by decide)⟩

/-- Claim C10: in the background-shade detection of `ocr_cell` /
`ocr_table_cell`, a tie between the binarized histogram bins for black
(0) and white (255) selects white, and black is selected exactly when
its count strictly exceeds white's. -/
theorem c10_tie_white (im : GrayImage) :
    (histo (binarize im) 0 = histo (binarize im) 255 → bgShade (binarize im) = 255) ∧
    (bgShade (binarize im) = 0 ↔ histo (binarize im) 255 < histo (binarize im) 0) := by
  unfold bgShade
  constructor
  · intro h
    rw [h]
    simp
  · constructor
    · intro h
      by_contra hc
      rw [if_neg (by exact fun hgt => hc hgt)] at h
      omega
    · intro h
      rw [if_pos h]

/-- Claim C10 (witness): on the concrete 2×1 cell `im2tie` the two bins
tie at 1 and the selected background shade is white. -/
theorem c10_tie_white_witness :
    histo (binarize im2tie) 0 = histo (binarize im2tie) 255 ∧
    bgShade (binarize im2tie) = 255 :=
  ⟨by decide, (c10_tie_white im2tie).1 (by decide)⟩

/-- Claim C2 (counterexample): on the scanline of `pix14` with runs at
columns 2-3, 6-10 and 12 and threshold 3 (only the middle run is long
enough), the emitted segment is `(2, 0, 12, 0)` — first and last
matching pixel of the whole scanline — not `(6, 0, 10, 0)`, the
endpoints of the longest run. -/
theorem c2_counterexample :
    get_hlines pix14 14 1 3 1 = [(some 2, 0, some 12, 0)] ∧
    ((some 2, 0, some 12, 0) : Option Nat × Nat × Option Nat × Nat) ≠
      (some 6, 0, some 10, 0) :=
  ⟨by decide, by decide⟩

/-- Claim C2 (amended): on every scanline for which `get_hlines` (resp.
`get_vlines`) emits a segment, the segment's start coordinate is the
first border-colored pixel of the whole scanline — except that a first
match at index 0 is replaced by the second match when one exists, the
Python truthiness quirk — and its end coordinate is the last
border-colored pixel of the whole scanline, regardless of which run is
longest; the longest-run length only gates whether the segment is
emitted at all. -/
theorem c2_emitted_endpoints {α : Type} [DecidableEq α] (pix : Nat → Nat → α)
    (w h thresh : Nat) (border : α) :
    (∀ y, y < h → (scanline border (fun x => pix x y) w).run > thresh →
      ((scanline border (fun x => pix x y) w).s1, y,
        (scanline border (fun x => pix x y) w).s2, y) ∈
          get_hlines pix w h thresh border ∧
      (scanline border (fun x => pix x y) w).s1 =
        emittedStart (matchList border (fun x => pix x y) w) ∧
      (scanline border (fun x => pix x y) w).s2 =
        (matchList border (fun x => pix x y) w).getLast?) ∧
    (∀ x, x < w → (scanline border (fun y => pix x y) h).run > thresh →
      (x, (scanline border (fun y => pix x y) h).s1, x,
        (scanline border (fun y => pix x y) h).s2) ∈
          get_vlines pix w h thresh border ∧
      (scanline border (fun y => pix x y) h).s1 =
        emittedStart (matchList border (fun y => pix x y) h) ∧
      (scanline border (fun y => pix x y) h).s2 =
        (matchList border (fun y => pix x y) h).getLast?) := by
  constructor
  · intro y hy hrun
    refine ⟨?_, scanline_s1 border _ w, scanline_s2 border _ w⟩
    unfold get_hlines
    exact List.mem_filterMap.mpr ⟨y, List.mem_range.mpr hy, by simp [hrun]⟩
  · intro x hx hrun
    refine ⟨?_, scanline_s1 border _ h, scanline_s2 border _ h⟩
    unfold get_vlines
    exact List.mem_filterMap.mpr ⟨x, List.mem_range.mpr hx, by simp [hrun]⟩

/-- Claim C2 (witness): the amended theorem applied to row 0 of `pix14`
with threshold 3. -/
theorem c2_emitted_endpoints_witness :
    ((0 : Nat) < 1 ∧ (scanline 1 (fun x => pix14 x 0) 14).run > 3) ∧
    (((scanline 1 (fun x => pix14 x 0) 14).s1, 0,
       (scanline 1 (fun x => pix14 x 0) 14).s2, 0) ∈ get_hlines pix14 14 1 3 1 ∧
     (scanline 1 (fun x => pix14 x 0) 14).s1 =
       emittedStart (matchList 1 (fun x => pix14 x 0) 14) ∧
     (scanline 1 (fun x => pix14 x 0) 14).s2 =
       (matchList 1 (fun x => pix14 x 0) 14).getLast?) :=
  ⟨⟨by decide, by decide⟩,
   (c2_emitted_endpoints pix14 14 1 3 1).1 0 (by decide) (by decide)⟩

/-- Claim C9: when a scanline that emits a segment has its first
border-colored pixel at index 0 and another border-colored pixel later,
the emitted start coordinate is the index of the next matching pixel
encountered — never 0 — because `if not x1:` re-assigns `x1` while it
holds the falsy value 0. -/
theorem c9_zero_start_reassigned {α : Type} [DecidableEq α] (pix : Nat → Nat → α)
    (w h thresh y : Nat) (border : α) (hy : y < h)
    (h0 : pix 0 y = border)
    (hx : ∃ x, x < w ∧ 0 < x ∧ pix x y = border)
    (hrun : (scanline border (fun x => pix x y) w).run > thresh) :
    ∃ m, (scanline border (fun x => pix x y) w).s1 = some m ∧ 0 < m ∧
      pix m y = border ∧ (∀ x, 0 < x → x < m → pix x y ≠ border) ∧
      (some m, y, (scanline border (fun x => pix x y) w).s2, y) ∈
        get_hlines pix w h thresh border ∧
      (scanline border (fun x => pix x y) w).s1 ≠ some 0 := by
  obtain ⟨x', hx'w, hx'0, hx'm⟩ := hx
  have hw0 : 0 < w := by omega
  have h0m : 0 ∈ matchList border (fun x => pix x y) w :=
    (mem_matchList border _ w 0).mpr ⟨hw0, h0⟩
  have hxm : x' ∈ matchList border (fun x => pix x y) w :=
    (mem_matchList border _ w x').mpr ⟨hx'w, hx'm⟩
  have hpw := pairwise_matchList border (fun x => pix x y) w
  have hs1 := scanline_s1 border (fun x => pix x y) w
  rcases hml : matchList border (fun x => pix x y) w with _ | ⟨m0, tail⟩
  · rw [hml] at h0m
    simp at h0m
  · rw [hml] at h0m hxm hpw hs1
    have hm0 : m0 = 0 := by
      rcases List.mem_cons.mp h0m with h | h
      · omega
      · have := ((List.pairwise_cons.mp hpw).1 0 h)
        omega
    rcases htl : tail with _ | ⟨m1, rest⟩
    · rw [htl] at hxm
      have : x' = m0 := by simpa using hxm
      omega
    · rw [htl] at hpw hs1 hxm
      have hm1pos : 0 < m1 := by
        have := (List.pairwise_cons.mp hpw).1 m1 (by simp)
        omega
      have hs1v : (scanline border (fun x => pix x y) w).s1 = some m1 := by
        rw [hs1, hm0]
        simp [emittedStart]
      have hm1mem : m1 ∈ matchList border (fun x => pix x y) w := by
        rw [hml, htl]
        simp
      have hm1w : m1 < w ∧ pix m1 y = border :=
        (mem_matchList border _ w m1).mp hm1mem
      refine ⟨m1, hs1v, hm1pos, hm1w.2, ?_, ?_, ?_⟩
      · intro x hx0 hxm1 hcontra
        have hxmem : x ∈ matchList border (fun x => pix x y) w :=
          (mem_matchList border _ w x).mpr ⟨by omega, hcontra⟩
        rw [hml, htl] at hxmem
        rcases List.mem_cons.mp hxmem with h | h
        · omega
        · rcases List.mem_cons.mp h with h' | h'
          · omega
          · have := (List.pairwise_cons.mp (List.pairwise_cons.mp hpw).2).1 x h'
            omega
      · rw [← hs1v]
        unfold get_hlines
        exact List.mem_filterMap.mpr ⟨y, List.mem_range.mpr hy, by simp [hrun]⟩
      · rw [hs1v]
        simp
        omega

/-- Claim C9 (witness): the theorem applied to row 0 of `pixC9`, whose
matches occupy columns 0-5 of a width-8 grid with threshold 2: the
emitted start is 1, not 0. -/
theorem c9_zero_start_reassigned_witness :
    ((0 : Nat) < 1 ∧ pixC9 0 0 = 1 ∧ (∃ x, x < 8 ∧ 0 < x ∧ pixC9 x 0 = 1) ∧
      (scanline 1 (fun x => pixC9 x 0) 8).run > 2) ∧
    (∃ m, (scanline 1 (fun x => pixC9 x 0) 8).s1 = some m ∧ 0 < m ∧
      pixC9 m 0 = 1 ∧ (∀ x, 0 < x → x < m → pixC9 x 0 ≠ 1) ∧
      (some m, 0, (scanline 1 (fun x => pixC9 x 0) 8).s2, 0) ∈
        get_hlines pixC9 8 1 2 1 ∧
      (scanline 1 (fun x => pixC9 x 0) 8).s1 ≠ some 0) :=
  ⟨⟨by decide, by decide, ⟨1, by decide⟩, by decide⟩,
   c9_zero_start_reassigned pixC9 8 1 2 0 1 (by decide) (by decide)
     ⟨1, by decide⟩ (by decide)⟩

/-- Claim C4 (counterexample): the width-5 grid `pixC4` contains exactly
one horizontal run, at columns 1-4, of length 4 = threshold 3 + 1, and
nothing else — yet `get_hlines` returns no segment at all, because the
run reaches the right edge and its length is only compared against the
maximum on the next mismatching pixel, which never comes. -/
theorem c4_counterexample :
    get_hlines pixC4 5 1 3 1 = [] ∧ (get_hlines pixC4 5 1 3 1).length ≠ 1 :=
  ⟨by decide, by decide⟩

/-- Claim C4 (amended): for every grid whose border-colored pixels are
exactly one horizontal run at columns `a..b` of row `y0`, provided the
run neither starts at column 0 (else the truthiness quirk shifts the
start, see C9) nor reaches the last column (else it is never counted,
see the counterexample): if its length is `thresh + 1` then `get_hlines`
returns exactly one segment at that row with the run's start and end;
and whenever its length is exactly `thresh`, `get_hlines` returns the
empty list (the comparison is strict). -/
theorem c4_single_run {α : Type} [DecidableEq α] (pix : Nat → Nat → α)
    (w h thresh : Nat) (border : α) (y0 a b : Nat)
    (hy : y0 < h) (hab : a ≤ b) (hbw : b < w)
    (hmatch : ∀ x, x < w → ∀ y, y < h →
      (pix x y = border ↔ (y = y0 ∧ a ≤ x ∧ x ≤ b))) :
    (1 ≤ a → b + 1 < w → b - a + 1 = thresh + 1 →
      get_hlines pix w h thresh border = [(some a, y0, some b, y0)]) ∧
    (b - a + 1 = thresh → get_hlines pix w h thresh border = []) := by
  have hiff0 : ∀ i, i < w → ((fun x => pix x y0) i = border ↔ a ≤ i ∧ i ≤ b) := by
    intro i hi
    have := hmatch i hi y0 hy
    simpa using this
  have hother : ∀ y, y < h → y ≠ y0 → ∀ i, i < w → (fun x => pix x y) i ≠ border := by
    intro y hy1 hne i hi hcontra
    exact hne ((hmatch i hi y hy1).mp hcontra).1
  constructor
  · intro ha hbw1 hlen
    have hs : scanline border (fun x => pix x y0) w = ⟨some a, some b, 0, b - a + 1⟩ := by
      rw [scanline_single_run border _ a b ha hab w hiff0,
        if_neg (by omega : ¬ w ≤ a), if_neg (by omega : ¬ w ≤ b + 1)]
    unfold get_hlines
    refine filterMap_range_single _ y0 (some a, y0, some b, y0) ?_ h hy ?_
    · show (if (scanline border (fun x => pix x y0) w).run > thresh
          then some ((scanline border (fun x => pix x y0) w).s1, y0,
            (scanline border (fun x => pix x y0) w).s2, y0) else none) =
          some (some a, y0, some b, y0)
      simp only [hs]
      rw [if_pos (by omega : b - a + 1 > thresh)]
    · intro y hy1 hne
      show (if (scanline border (fun x => pix x y) w).run > thresh
          then some ((scanline border (fun x => pix x y) w).s1, y,
            (scanline border (fun x => pix x y) w).s2, y) else none) = none
      simp only [scanline_no_match border _ w (hother y hy1 hne), initScan]
      rw [if_neg (by omega : ¬ (0 : Nat) > thresh)]
  · intro hlen
    unfold get_hlines
    apply filterMap_range_nil
    intro y hy1
    show (if (scanline border (fun x => pix x y) w).run > thresh
        then some ((scanline border (fun x => pix x y) w).s1, y,
          (scanline border (fun x => pix x y) w).s2, y) else none) = none
    by_cases hne : y = y0
    · subst hne
      have hrle := (scanline_le border (fun x => pix x y) w).2
      have hml := matchList_interval border (fun x => pix x y) a b w hiff0
      have hlenml : (matchList border (fun x => pix x y) w).length = b - a + 1 := by
        rw [hml]
        simp [List.length_range']
        omega
      rw [if_neg (by omega : ¬ (scanline border (fun x => pix x y) w).run > thresh)]
    · simp only [scanline_no_match border _ w (hother y hy1 hne), initScan]
      rw [if_neg (by omega : ¬ (0 : Nat) > thresh)]

/-- Claim C4 (witness): the amended theorem applied to the 6×2 grid
`pixW4` whose single run occupies columns 1-2 of row 0 with threshold 1:
exactly one segment `(1, 0, 2, 0)` is emitted. -/
theorem c4_single_run_witness :
    get_hlines pixW4 6 2 1 1 = [(some 1, 0, some 2, 0)] :=
  (c4_single_run pixW4 6 2 1 1 0 1 2 (by decide) (by decide) (by decide)
    (by decide)).1 (by decide) (by decide) (by decide)

/-- Claim C5 (counterexample): two horizontal segments `(2, 0, 7, 0)` and
`(2, 10, 7, 10)` with fixed-coordinate gap 10 > 1 yield exactly one
boundary, `(2, 0, 7, 10)` — not zero boundaries as the claim's "in
particular" clause says — and for rows the boundary tuple is
`(prev.start, prev.fixed, curr.end, curr.fixed)`, not the claimed
`(prev.fixed, prev.start, curr.fixed, curr.end)` = `(0, 2, 10, 7)`. -/
theorem c5_counterexample :
    get_rows [((2 : Nat), (0 : Nat), (7 : Nat), (0 : Nat)), (2, 10, 7, 10)] =
      [(2, 0, 7, 10)] ∧
    (get_rows [((2 : Nat), (0 : Nat), (7 : Nat), (0 : Nat)), (2, 10, 7, 10)]).length ≠ 0 ∧
    ((2, 0, 7, 10) : Nat × Nat × Nat × Nat) ≠ (0, 2, 10, 7) :=
  ⟨by decide, by decide, by decide⟩

/-- Claim C5 (amended): for every list of N vertical segments whose
consecutive fixed coordinates differ by more than 1, `get_cols` returns
exactly N − 1 boundaries, the i-th combining segment i and segment i+1
as `(prev.fixed, prev.start, curr.fixed, curr.end)`; for every list of N
well-formed horizontal segments `(x1, y, x2, y)` with consecutive fixed
coordinates differing by more than 1, `get_rows` likewise returns N − 1
boundaries, the i-th being `(prev.start, prev.fixed, curr.end,
curr.fixed)`; in particular exactly two such lines yield one boundary,
not zero. -/
theorem c5_boundaries (vs : List (Nat × Nat × Nat × Nat))
    (hs : List (Nat × Nat × Nat × Nat))
    (hv : List.Chain' (fun p c => ((c.1 : Int)) - ((p.1 : Int)) > 1) vs)
    (hshape : ∀ r ∈ hs, r.2.1 = r.2.2.2)
    (hh : List.Chain' (fun p c => ((c.2.1 : Int)) - ((p.2.1 : Int)) > 1) hs) :
    (get_cols vs).length = vs.length - 1 ∧
    (∀ i, (h1 : i + 1 < vs.length) →
      (get_cols vs)[i]? = some ((vs.get ⟨i, by omega⟩).1, (vs.get ⟨i, by omega⟩).2.1,
        (vs.get ⟨i + 1, h1⟩).2.2.1, (vs.get ⟨i + 1, h1⟩).2.2.2)) ∧
    (get_rows hs).length = hs.length - 1 ∧
    (∀ i, (h1 : i + 1 < hs.length) →
      (get_rows hs)[i]? = some ((hs.get ⟨i, by omega⟩).1, (hs.get ⟨i, by omega⟩).2.1,
        (hs.get ⟨i + 1, h1⟩).2.2.1, (hs.get ⟨i + 1, h1⟩).2.2.2)) := by
  have hvall : ∀ pc ∈ vs.zip vs.tail,
      ((pc.2.1 : Int)) - ((pc.1.1 : Int)) > 1 :=
    chain'_zip_tail _ vs hv
  have hhall : ∀ pc ∈ hs.zip hs.tail,
      ((pc.2.2.1 : Int)) - ((pc.1.2.2.2 : Int)) > 1 := by
    intro pc hpc
    have hr := chain'_zip_tail _ hs hh pc hpc
    have hp := (List.of_mem_zip hpc).1
    rw [← hshape pc.1 hp]
    exact hr
  have hcols : get_cols vs = (vs.zip vs.tail).map
      (fun pc => (pc.1.1, pc.1.2.1, pc.2.2.2.1, pc.2.2.2.2)) := by
    unfold get_cols
    exact filterMap_if_all _ _ _ hvall
  have hrows : get_rows hs = (hs.zip hs.tail).map
      (fun pc => (pc.1.1, pc.1.2.1, pc.2.2.2.1, pc.2.2.2.2)) := by
    unfold get_rows
    exact filterMap_if_all _ _ _ hhall
  refine ⟨?_, ?_, ?_, ?_⟩
  · rw [hcols]
    simp [List.length_zip, List.length_tail]
  · intro i h1
    have hiz : i < (vs.zip vs.tail).length := by
      simp [List.length_zip, List.length_tail]
      omega
    rw [hcols]
    rw [List.getElem?_eq_getElem (by simpa using hiz)]
    simp [List.getElem_zip, List.getElem_tail, List.get_eq_getElem]
  · rw [hrows]
    simp [List.length_zip, List.length_tail]
  · intro i h1
    have hiz : i < (hs.zip hs.tail).length := by
      simp [List.length_zip, List.length_tail]
      omega
    rw [hrows]
    rw [List.getElem?_eq_getElem (by simpa using hiz)]
    simp [List.getElem_zip, List.getElem_tail, List.get_eq_getElem]

/-- Claim C5 (witness): the amended theorem applied to two vertical
segments and two horizontal segments with gap > 1: each yields exactly
one boundary, combining the pair's coordinates. -/
theorem c5_boundaries_witness :
    (get_cols [((0 : Nat), (2 : Nat), (0 : Nat), (9 : Nat)), (4, 2, 4, 9)]).length =
      2 - 1 ∧
    (get_cols [((0 : Nat), (2 : Nat), (0 : Nat), (9 : Nat)), (4, 2, 4, 9)])[0]? =
      some (0, 2, 4, 9) ∧
    (get_rows [((2 : Nat), (1 : Nat), (7 : Nat), (1 : Nat)), (2, 11, 7, 11)]).length =
      2 - 1 ∧
    (get_rows [((2 : Nat), (1 : Nat), (7 : Nat), (1 : Nat)), (2, 11, 7, 11)])[0]? =
      some (2, 1, 7, 11) := by
  have hv : List.Chain' (fun p c => ((c.1 : Int)) - ((p.1 : Int)) > 1)
      [((0 : Nat), (2 : Nat), (0 : Nat), (9 : Nat)), (4, 2, 4, 9)] :=
    List.chain'_cons.mpr ⟨by decide, List.chain'_singleton _⟩
  have hsh : ∀ r ∈ [((2 : Nat), (1 : Nat), (7 : Nat), (1 : Nat)), (2, 11, 7, 11)],
      r.2.1 = r.2.2.2 := by decide
  have hhc : List.Chain' (fun p c => ((c.2.1 : Int)) - ((p.2.1 : Int)) > 1)
      [((2 : Nat), (1 : Nat), (7 : Nat), (1 : Nat)), (2, 11, 7, 11)] :=
    List.chain'_cons.mpr ⟨by decide, List.chain'_singleton _⟩
  exact ⟨(c5_boundaries _ _ hv hsh hhc).1,
    (c5_boundaries _ _ hv hsh hhc).2.1 0 (by decide),
    (c5_boundaries _ _ hv hsh hhc).2.2.1,
    (c5_boundaries _ _ hv hsh hhc).2.2.2 0 (by decide)⟩

/-- Claim C6: `get_cells` applied to R row boundaries and C column
boundaries produces a dense row-major R×C matrix whose entry (i, j) is
`(col[j].x_start, row[i].y_start, col[j].x_end, row[i].y_end)`: the
horizontal extent comes from column boundary j, the vertical extent
from row boundary i. -/
theorem c6_cell_matrix (rows cols : List (Nat × Nat × Nat × Nat)) :
    (get_cells rows cols).length = rows.length ∧
    (∀ r ∈ get_cells rows cols, r.length = cols.length) ∧
    (∀ i j, (hi : i < rows.length) → (hj : j < cols.length) →
      ((get_cells rows cols).getD i []).getD j (0, 0, 0, 0) =
        ((cols.get ⟨j, hj⟩).1, (rows.get ⟨i, hi⟩).2.1,
         (cols.get ⟨j, hj⟩).2.2.1, (rows.get ⟨i, hi⟩).2.2.2)) := by
  refine ⟨by simp [get_cells], ?_, ?_⟩
  · intro r hr
    obtain ⟨row, _, rfl⟩ := List.mem_map.mp hr
    simp
  · intro i j hi hj
    unfold get_cells
    have houter : (List.map (fun row => List.map (fun col =>
          (col.1, row.2.1, col.2.2.1, row.2.2.2)) cols) rows).getD i [] =
        List.map (fun col => (col.1, (rows.get ⟨i, hi⟩).2.1, col.2.2.1,
          (rows.get ⟨i, hi⟩).2.2.2)) cols := by
      rw [List.getD_eq_getElem?_getD, List.getElem?_map,
        List.getElem?_eq_getElem hi]
      simp [List.get_eq_getElem]
    rw [houter, List.getD_eq_getElem?_getD, List.getElem?_map,
      List.getElem?_eq_getElem hj]
    simp [List.get_eq_getElem]

/-- Claim C6 (witness): the theorem applied to one concrete row boundary
and one concrete column boundary. -/
theorem c6_cell_matrix_witness :
    ((get_cells [((2 : Nat), (1 : Nat), (7 : Nat), (10 : Nat))]
        [((0 : Nat), (2 : Nat), (4 : Nat), (9 : Nat))]).getD 0 []).getD 0 (0, 0, 0, 0) =
      (0, 1, 4, 10) :=
  (c6_cell_matrix [(2, 1, 7, 10)] [(0, 2, 4, 9)]).2.2 0 0 (by decide) (by decide)

/-- Claim C7: when zero row boundaries or zero column boundaries are
detected, the cell-matrix construction of `get_image_data` /
`get_image_table_data` returns a matrix containing no cells — the list
of `len(rows)` empty rows — independently of the per-cell processing
function, so no cell is cropped, trimmed or otherwise processed, and no
error is raised. -/
theorem c7_no_table {α β : Type} [DecidableEq α]
    (process : Nat × Nat × Nat × Nat → β) (pix : Nat → Nat → α)
    (w h hthresh vthresh : Nat) (border : α)
    (hempty : get_rows (get_hlines pix w h hthresh border) = [] ∨
              get_cols (get_vlines pix w h vthresh border) = []) :
    get_image_data_core process pix w h hthresh vthresh border =
      List.replicate (get_rows (get_hlines pix w h hthresh border)).length [] ∧
    (get_image_data_core process pix w h hthresh vthresh border).flatten = [] := by
  have hmain : get_image_data_core process pix w h hthresh vthresh border =
      List.replicate (get_rows (get_hlines pix w h hthresh border)).length [] := by
    simp only [get_image_data_core]
    rcases hempty with he | he
    · rw [he]
      simp
    · rw [he]
      simp [List.map_const']
  refine ⟨hmain, ?_⟩
  rw [hmain]
  simp [List.flatten_eq_nil_iff]

/-- Claim C7 (witness): on a 1×1 grid with no border-colored pixel at
all, no lines and hence no rows are detected and the data matrix is
empty. -/
theorem c7_no_table_witness :
    (get_rows (get_hlines pixOne 1 1 300 0) = [] ∨
      get_cols (get_vlines pixOne 1 1 300 0) = []) ∧
    (get_image_data_core (fun c => c) pixOne 1 1 300 300 0 =
      List.replicate (get_rows (get_hlines pixOne 1 1 300 0)).length [] ∧
     (get_image_data_core (fun c => c) pixOne 1 1 300 300 0).flatten = []) :=
  ⟨Or.inl (by decide),
   c7_no_table (fun c => c) pixOne 1 1 300 300 0 (Or.inl (by decide))⟩

end OcrTable
